import Mathlib

/-!
Shallow embedding of the FacialRecognition repository
(src/face_recognition_system.py, src/utils.py, src/register_face.py,
src/examples.py).

The heavy lifting (face detection, encoding, distance computation) is done
by external libraries (face_recognition, OpenCV, NumPy).  Those calls are
modelled as oracle inputs: a face encoding is an abstract vector of
rationals, and the per-frame library output (the match list of
compare_faces and the distance vector of face_distance) is data handed to
the embedded function.  Floating-point quantities are modelled exactly as
rationals.  File-system effects are modelled by explicit state passing.
-/

namespace FacialRecognition

/-- A face embedding vector, as produced by face_recognition.face_encodings. -/
abbrev Encoding := List ℚ

/-- The in-memory registry of FaceRecognitionSystem: the two parallel lists
self.known_face_encodings and self.known_face_names. -/
structure FRSState where
  known_face_encodings : List Encoding
  known_face_names : List String
deriving DecidableEq

/-- The pickled blob: a dict with exactly the two keys encodings and names
(face_recognition_system.py lines 86-90, utils.save_encodings). -/
structure EncBlob where
  encodings : List Encoding
  names : List String
deriving DecidableEq

/-- Minimum of a list of rationals, 0 on the empty list (never used there). -/
def listMin : List ℚ → ℚ
  | [] => 0
  | x :: xs => xs.foldl min x

/-- Model of np.argmin on a distance vector: index of the first minimal
element (NumPy returns the first occurrence of the minimum). -/
def argmin (l : List ℚ) : ℕ :=
  l.findIdx (fun x => decide (x ≤ listMin l))

/-- Output of the external library for one detected face encoding:
matches = face_recognition.compare_faces(known, enc, tolerance),
distances = face_recognition.face_distance(known, enc). -/
structure LibFaceResult where
  matchList : List Bool
  distances : List ℚ
deriving DecidableEq

/-- The label recognize_faces_in_frame appends to face_names for one face:
either the string Inconnu, or a known name decorated with the confidence
percentage (1 - distance) * 100 (the code renders the pair as one string). -/
inductive FaceLabel
  | inconnu
  | known (name : String) (confidence : ℚ)
deriving DecidableEq

/-- The per-encoding body of the loop in recognize_faces_in_frame
(face_recognition_system.py lines 117-139): name starts as Inconnu; if the
known registry is non-empty, take the argmin of the distances and use the
known name there when the match list marks that index. -/
def recognizeFace (s : FRSState) (r : LibFaceResult) : FaceLabel :=
  if s.known_face_encodings.isEmpty then FaceLabel.inconnu
  else
    let best := argmin r.distances
    if r.matchList.getD best false then
      FaceLabel.known (s.known_face_names.getD best "")
        ((1 - r.distances.getD best 0) * 100)
    else FaceLabel.inconnu

/-- The face_names accumulation loop of recognize_faces_in_frame: one
append per detected face encoding, in order.  The per-face library outputs
are the oracle inputs rs. -/
def recognize_faces_in_frame (s : FRSState) (rs : List LibFaceResult) : List FaceLabel :=
  rs.foldl (fun acc r => acc ++ [recognizeFace s r]) []

/-- Index of the last occurrence of c in cs, as in Python str.rfind. -/
def rfindIdx (cs : List Char) (c : Char) : Option ℕ :=
  match cs.reverse.findIdx? (fun x => decide (x = c)) with
  | none => none
  | some j => some (cs.length - 1 - j)

/-- Model of pathlib Path.suffix on a final path component: the substring
from the last dot, unless the dot is absent, leading, or trailing. -/
def pathSuffix (nm : String) : String :=
  let cs := nm.toList
  match rfindIdx cs '.' with
  | none => ""
  | some i => if 0 < i ∧ i + 1 < cs.length then String.mk (cs.drop i) else ""

/-- The extension whitelist of encode_known_faces
(face_recognition_system.py line 58). -/
def image_extensions : List String := [ ".jpg", ".jpeg", ".png", ".bmp"]

/-- Oracle outcome of loading and encoding one image file:
either the list of encodings face_recognition.face_encodings returns,
or an exception raised while loading or encoding. -/
inductive ImgResult
  | ok (encs : List Encoding)
  | err
deriving DecidableEq

/-- One file inside a person directory, together with the oracle outcome
of encoding it. -/
structure ImgFile where
  name : String
  result : ImgResult
deriving DecidableEq

/-- One immediate child of the known-faces directory: a person
subdirectory with its files, or a plain file (skipped by is_dir()). -/
inductive DirEntry
  | dir (dname : String) (files : List ImgFile)
  | file (fname : String)
deriving DecidableEq

/-- The file-system state FaceRecognitionSystem touches: the pickled
encodings file (none when absent) and the known-faces directory
(none when absent). -/
structure FS where
  encodings_file : Option EncBlob
  known_faces_dir : Option (List DirEntry)
deriving DecidableEq

/-- Body of the inner loop of encode_known_faces
(face_recognition_system.py lines 65-82): skip files whose lowercased
suffix is not whitelisted, catch exceptions, skip images with no face,
and append the first encoding together with the person name. -/
def processImage (person_name : String) (s : FRSState) (f : ImgFile) : FRSState :=
  if (pathSuffix f.name).toLower ∈ image_extensions then
    match f.result with
    | ImgResult.err => s
    | ImgResult.ok encs =>
      match encs with
      | [] => s
      | e :: _ =>
        { known_face_encodings := s.known_face_encodings ++ [e],
          known_face_names := s.known_face_names ++ [person_name] }
  else s

/-- Body of the outer loop of encode_known_faces (lines 60-64): only
entries that are directories are processed. -/
def processEntry (s : FRSState) (entry : DirEntry) : FRSState :=
  match entry with
  | DirEntry.dir dname files => files.foldl (processImage dname) s
  | DirEntry.file _ => s

/-- encode_known_faces (face_recognition_system.py lines 50-93): if the
known-faces directory is missing, create it and return; otherwise walk
the person subdirectories appending encodings, then dump the blob to the
encodings file when the encoding list is non-empty. -/
def encode_known_faces (s : FRSState) (fs : FS) : FRSState × FS :=
  match fs.known_faces_dir with
  | none => (s, { fs with known_faces_dir := some [] })
  | some entries =>
    let s1 := entries.foldl processEntry s
    if s1.known_face_encodings.isEmpty then (s1, fs)
    else
      let blob : EncBlob :=
        { encodings := s1.known_face_encodings, names := s1.known_face_names }
      (s1, { fs with encodings_file := some blob })

/-- load_known_faces (face_recognition_system.py lines 36-48): load both
lists from the pickled file when it exists, otherwise fall back to
encode_known_faces. -/
def load_known_faces (s : FRSState) (fs : FS) : FRSState × FS :=
  match fs.encodings_file with
  | some blob =>
    ({ known_face_encodings := blob.encodings, known_face_names := blob.names }, fs)
  | none => encode_known_faces s fs

/-- FaceRecognitionSystem.__init__ (lines 19-34): both lists start empty,
then load_known_faces runs. -/
def initSystem (fs : FS) : FRSState × FS :=
  load_known_faces { known_face_encodings := [], known_face_names := [] } fs

/-- A flat pickle store for utils.save_encodings / utils.load_encodings:
filename to blob. -/
abbrev PickleFS := String → Option EncBlob

/-- utils.save_encodings (utils.py lines 121-138): dump the dict with keys
encodings and names to filename. -/
def save_encodings (encodings : List Encoding) (names : List String)
    (filename : String) (fs : PickleFS) : PickleFS :=
  fun f => if f = filename then some { encodings := encodings, names := names } else fs f

/-- utils.load_encodings (utils.py lines 141-152): unpickle the blob at
filename (raises when the file is absent, hence Option). -/
def load_encodings (filename : String) (fs : PickleFS) : Option EncBlob :=
  fs filename

/-- An opaque-content image as returned by cv2.imread; the oracle input is
none exactly when cv2.imread fails. -/
abbrev Image := ℕ

/-- utils.load_image (utils.py lines 16-29): return the image read by
cv2.imread, but raise a repository-constructed ValueError when cv2.imread
returned None. -/
def load_image (image_path : String) (imread : Option Image) : Except String Image :=
  match imread with
  | none => Except.error ( "Impossible de charger l\x27image: " ++ image_path)
  | some img => Except.ok img

/-- Opaque content of an image file on disk. -/
abbrev Content := ℕ

/-- Files of one person subdirectory: file name to content. -/
abbrev FileList := List (String × Content)

/-- shutil.copy to a destination inside a directory: overwrite the file of
that name when present, create it otherwise. -/
def setFile (files : FileList) (n : String) (c : Content) : FileList :=
  match files with
  | [] => [(n, c)]
  | (m, d) :: rest => if m = n then (n, c) :: rest else (m, d) :: setFile rest n c

/-- person_dir.mkdir(exist_ok=True) followed by the copy: keep an existing
person directory, create it when absent, then write the file into it. -/
def mkdirAddFile (tree : List (String × FileList)) (person : String)
    (n : String) (c : Content) : List (String × FileList) :=
  match tree with
  | [] => [(person, [(n, c)])]
  | (p, fl) :: rest =>
    if p = person then (p, setFile fl n c) :: rest
    else (p, fl) :: mkdirAddFile rest person n c

/-- FaceRegistration.add_from_file (register_face.py lines 206-231): when
the source file does not exist, print and return False without touching
the tree; otherwise create the person directory if needed, copy the source
(src is its content, srcName its basename) and return True. -/
def add_from_file (person_name : String) (srcName : String)
    (src : Option Content) (tree : List (String × FileList)) :
    Bool × List (String × FileList) :=
  match src with
  | none => (false, tree)
  | some c => (true, mkdirAddFile tree person_name srcName c)

/-- Content of a file of a person directory in the tree, when both exist. -/
def lookupFile (tree : List (String × FileList)) (person : String)
    (n : String) : Option Content :=
  match tree with
  | [] => none
  | (p, fl) :: rest =>
    if p = person then
      match fl.find? (fun pr => decide (pr.fst = n)) with
      | none => none
      | some pr => some pr.snd
    else lookupFile rest person n

/-- Whether a person subdirectory exists in the tree. -/
def dirHasPerson (tree : List (String × FileList)) (person : String) : Bool :=
  tree.any (fun pr => decide (pr.fst = person))

/-- utils.resize_image (utils.py lines 155-179) on the image dimensions:
ratio = min(max_width / width, max_height / height) computed exactly as a
rational; below 1 the image is resized to the truncated scaled dimensions,
otherwise it is returned unchanged. -/
def resize_image (width height max_width max_height : ℕ) : ℕ × ℕ :=
  let ratio : ℚ := min ((max_width : ℚ) / (width : ℚ)) ((max_height : ℚ) / (height : ℚ))
  if ratio < 1 then
    ((Int.floor ((width : ℚ) * ratio)).toNat, (Int.floor ((height : ℚ) * ratio)).toNat)
  else (width, height)

/-- int(np.ceil(np.sqrt(n))) of create_face_mosaic (utils.py line 235),
modelled exactly: the least k with n le k * k. -/
def ceilSqrt (n : ℕ) : ℕ :=
  if Nat.sqrt n * Nat.sqrt n = n then Nat.sqrt n else Nat.sqrt n + 1

/-- Number of columns of the mosaic grid (utils.py line 235). -/
def mosaicCols (n : ℕ) : ℕ := ceilSqrt n

/-- Number of rows of the mosaic grid, int(np.ceil(n / cols))
(utils.py line 236). -/
def mosaicRows (n : ℕ) : ℕ :=
  (Int.ceil ((n : ℚ) / (mosaicCols n : ℚ))).toNat

/-- Spec-side description of what one image file contributes to the
registry in encode_known_faces: the first encoding of a whitelisted,
successfully encoded image containing a face, labelled with the person
name; nothing otherwise. -/
def imageContribution (person_name : String) (f : ImgFile) : Option (Encoding × String) :=
  if (pathSuffix f.name).toLower ∈ image_extensions then
    match f.result with
    | ImgResult.ok (e :: _) => some (e, person_name)
    | _ => none
  else none

/-- Spec-side description of all (encoding, name) pairs encode_known_faces
appends, in iteration order: immediate subdirectories only, each file of a
subdirectory contributing at most one pair. -/
def encodedOf (entries : List DirEntry) : List (Encoding × String) :=
  match entries with
  | [] => []
  | DirEntry.dir dname files :: rest =>
    files.filterMap (imageContribution dname) ++ encodedOf rest
  | DirEntry.file _ :: rest => encodedOf rest

/-- A directory entry with the files whose encoding raises an exception
removed. -/
def dropErrFiles (entry : DirEntry) : DirEntry :=
  match entry with
  | DirEntry.dir dname files =>
    DirEntry.dir dname (files.filter (fun f => decide (f.result ≠ ImgResult.err)))
  | DirEntry.file fname => DirEntry.file fname

/-! Helper lemmas. -/

theorem foldl_min_le_init (xs : List ℚ) : ∀ a : ℚ, xs.foldl min a ≤ a := by
  induction xs with
  | nil => intro a; simp
  | cons x xs ih =>
    intro a
    simpa using le_trans (ih (min a x)) (min_le_left a x)

theorem foldl_min_le_mem (xs : List ℚ) : ∀ a x : ℚ, x ∈ xs → xs.foldl min a ≤ x := by
  induction xs with
  | nil => intro a x hx; simp at hx
  | cons y ys ih =>
    intro a x hx
    rcases List.mem_cons.mp hx with h | h
    · subst h
      simpa using le_trans (foldl_min_le_init ys (min a x)) (min_le_right a x)
    · simpa using ih (min a y) x h

theorem foldl_min_mem (xs : List ℚ) : ∀ a : ℚ, xs.foldl min a = a ∨ xs.foldl min a ∈ xs := by
  induction xs with
  | nil => intro a; left; rfl
  | cons y ys ih =>
    intro a
    rcases ih (min a y) with h | h
    · rcases le_total a y with hay | hay
      · left
        simp only [List.foldl_cons]
        rw [h, min_eq_left hay]
      · right
        simp only [List.foldl_cons]
        rw [h, min_eq_right hay]
        exact List.mem_cons_self y ys
    · right
      exact List.mem_cons_of_mem y h

theorem listMin_le (l : List ℚ) (x : ℚ) (hx : x ∈ l) : listMin l ≤ x := by
  cases l with
  | nil => simp at hx
  | cons y ys =>
    rcases List.mem_cons.mp hx with h | h
    · subst h; exact foldl_min_le_init ys x
    · exact foldl_min_le_mem ys y x h

theorem listMin_mem (l : List ℚ) (hne : l ≠ []) : listMin l ∈ l := by
  cases l with
  | nil => exact absurd rfl hne
  | cons y ys =>
    rcases foldl_min_mem ys y with h | h
    · show ys.foldl min y ∈ y :: ys
      rw [h]
      exact List.mem_cons_self y ys
    · exact List.mem_cons_of_mem y h

theorem argmin_lt_length (l : List ℚ) (hne : l ≠ []) : argmin l < l.length := by
  apply List.findIdx_lt_length_of_exists
  exact ⟨listMin l, listMin_mem l hne, by simp⟩

theorem argmin_le_getD (l : List ℚ) (hne : l ≠ []) :
    ∀ i, i < l.length → l.getD (argmin l) 0 ≤ l.getD i 0 := by
  intro i hi
  have hlt : argmin l < l.length := argmin_lt_length l hne
  have hp := @List.findIdx_getElem ℚ (fun x => decide (x ≤ listMin l)) l hlt
  have hmin : l.get ⟨argmin l, hlt⟩ ≤ listMin l := by simpa using hp
  have h1 : l.getD (argmin l) 0 = l.get ⟨argmin l, hlt⟩ := by
    simp [List.getD_eq_getElem?_getD, List.getElem?_eq_getElem hlt]
  have h2 : l.getD i 0 = l.get ⟨i, hi⟩ := by
    simp [List.getD_eq_getElem?_getD, List.getElem?_eq_getElem hi]
  rw [h1, h2]
  exact le_trans hmin (listMin_le l _ (List.get_mem l i hi))

theorem foldl_append_singleton {α β : Type} (f : α → β) (rs : List α) :
    ∀ acc : List β, rs.foldl (fun a r => a ++ [f r]) acc = acc ++ rs.map f := by
  induction rs with
  | nil => intro acc; simp
  | cons r rs ih => intro acc; simp [ih]

theorem find?_setFile (fl : FileList) (n : String) (c : Content) :
    (setFile fl n c).find? (fun pr => decide (pr.fst = n)) = some (n, c) := by
  induction fl with
  | nil => simp [setFile]
  | cons hd tl ih =>
    obtain ⟨m, d⟩ := hd
    by_cases h : m = n
    · subst h
      simp [setFile]
    · simp [setFile, h, ih]

theorem lookupFile_mkdirAddFile (tree : List (String × FileList))
    (person n : String) (c : Content) :
    lookupFile (mkdirAddFile tree person n c) person n = some c := by
  induction tree with
  | nil => simp [mkdirAddFile, lookupFile]
  | cons hd tl ih =>
    obtain ⟨p, fl⟩ := hd
    by_cases h : p = person
    · subst h
      simp [mkdirAddFile, lookupFile, find?_setFile]
    · simp [mkdirAddFile, h, lookupFile, ih]

theorem dirHasPerson_mkdirAddFile (tree : List (String × FileList))
    (person n : String) (c : Content) :
    dirHasPerson (mkdirAddFile tree person n c) person = true := by
  induction tree with
  | nil => simp [mkdirAddFile, dirHasPerson]
  | cons hd tl ih =>
    obtain ⟨p, fl⟩ := hd
    by_cases h : p = person
    · subst h
      simp [mkdirAddFile, dirHasPerson]
    · simp only [mkdirAddFile, if_neg h, dirHasPerson, List.any_cons]
      simp only [dirHasPerson] at ih
      simp [ih, h]

theorem processImage_eq (person_name : String) (s : FRSState) (f : ImgFile) :
    processImage person_name s f =
      { known_face_encodings :=
          s.known_face_encodings ++ ((imageContribution person_name f).toList.map Prod.fst),
        known_face_names :=
          s.known_face_names ++ ((imageContribution person_name f).toList.map Prod.snd) } := by
  obtain ⟨enc, nms⟩ := s
  unfold processImage imageContribution
  by_cases hsuf : (pathSuffix f.name).toLower ∈ image_extensions
  · simp only [hsuf, if_true]
    cases hres : f.result with
    | err => simp
    | ok encs =>
      cases encs with
      | nil => simp
      | cons e rest => simp
  · simp [hsuf]

theorem foldl_processImage_eq (dname : String) (files : List ImgFile) :
    ∀ s : FRSState, files.foldl (processImage dname) s =
      { known_face_encodings :=
          s.known_face_encodings ++ (files.filterMap (imageContribution dname)).map Prod.fst,
        known_face_names :=
          s.known_face_names ++ (files.filterMap (imageContribution dname)).map Prod.snd } := by
  induction files with
  | nil => intro s; cases s; simp
  | cons f fl ih =>
    intro s
    rw [List.foldl_cons, ih, processImage_eq]
    cases himc : imageContribution dname f <;>
      simp [List.filterMap_cons, himc]

theorem foldl_processEntry_eq (entries : List DirEntry) :
    ∀ s : FRSState, entries.foldl processEntry s =
      { known_face_encodings :=
          s.known_face_encodings ++ (encodedOf entries).map Prod.fst,
        known_face_names :=
          s.known_face_names ++ (encodedOf entries).map Prod.snd } := by
  induction entries with
  | nil => intro s; cases s; simp [encodedOf]
  | cons e rest ih =>
    intro s
    cases e with
    | dir dname files =>
      rw [List.foldl_cons]
      show rest.foldl processEntry (files.foldl (processImage dname) s) = _
      rw [foldl_processImage_eq, ih]
      simp [encodedOf]
    | file fname =>
      rw [List.foldl_cons]
      show rest.foldl processEntry s = _
      rw [ih]
      simp [encodedOf]

theorem processImage_err (person_name : String) (s : FRSState) (f : ImgFile)
    (h : f.result = ImgResult.err) : processImage person_name s f = s := by
  unfold processImage
  rw [h]
  split <;> rfl

theorem foldl_processImage_filter_err (dname : String) (files : List ImgFile) :
    ∀ s : FRSState, files.foldl (processImage dname) s =
      (files.filter (fun f => decide (f.result ≠ ImgResult.err))).foldl
        (processImage dname) s := by
  induction files with
  | nil => intro s; rfl
  | cons f fl ih =>
    intro s
    rw [List.foldl_cons]
    by_cases h : f.result = ImgResult.err
    · rw [processImage_err dname s f h]
      simpa [List.filter_cons, h] using ih s
    · have hp : (decide (f.result ≠ ImgResult.err)) = true := by simp [h]
      simp only [List.filter_cons, hp, if_true, List.foldl_cons]
      exact ih (processImage dname s f)

theorem foldl_processEntry_dropErr (entries : List DirEntry) :
    ∀ s : FRSState, entries.foldl processEntry s =
      (entries.map dropErrFiles).foldl processEntry s := by
  induction entries with
  | nil => intro s; rfl
  | cons e rest ih =>
    intro s
    rw [List.foldl_cons, List.map_cons, List.foldl_cons]
    have he : processEntry s (dropErrFiles e) = processEntry s e := by
      cases e with
      | dir dname files =>
        show (files.filter _).foldl (processImage dname) s =
          files.foldl (processImage dname) s
        exact (foldl_processImage_filter_err dname files s).symm
      | file fname => rfl
    rw [he, ih]

theorem encode_fst_eq (s : FRSState) (fs : FS) (entries : List DirEntry)
    (hdir : fs.known_faces_dir = some entries) :
    (encode_known_faces s fs).fst = entries.foldl processEntry s := by
  unfold encode_known_faces
  rw [hdir]
  by_cases hempty : (entries.foldl processEntry s).known_face_encodings.isEmpty
  · simp [hempty]
  · simp [hempty]

/-- Well-formedness of the encodings file: when present, its blob holds
two lists of equal length. -/
def FS.wf (fs : FS) : Prop :=
  ∀ b : EncBlob, fs.encodings_file = some b → b.encodings.length = b.names.length

theorem foldl_processEntry_balanced (entries : List DirEntry) (s : FRSState)
    (hbal : s.known_face_encodings.length = s.known_face_names.length) :
    (entries.foldl processEntry s).known_face_encodings.length =
      (entries.foldl processEntry s).known_face_names.length := by
  rw [foldl_processEntry_eq]
  simp [hbal]

theorem encode_preserves (s : FRSState) (fs : FS)
    (hwf : FS.wf fs)
    (hbal : s.known_face_encodings.length = s.known_face_names.length) :
    ((encode_known_faces s fs).fst.known_face_encodings.length =
      (encode_known_faces s fs).fst.known_face_names.length) ∧
    FS.wf (encode_known_faces s fs).snd ∧
    (∀ b, (encode_known_faces s fs).snd.encodings_file = some b →
      fs.encodings_file = some b ∨
      (b = EncBlob.mk (encode_known_faces s fs).fst.known_face_encodings
            (encode_known_faces s fs).fst.known_face_names ∧
       b.encodings.length = b.names.length)) := by
  cases hdir : fs.known_faces_dir with
  | none =>
    have henc : encode_known_faces s fs = (s, { fs with known_faces_dir := some [] }) := by
      unfold encode_known_faces
      rw [hdir]
    rw [henc]
    refine ⟨hbal, ?_, ?_⟩
    · intro b hb
      exact hwf b hb
    · intro b hb
      exact Or.inl hb
  | some entries =>
    have hbal1 := foldl_processEntry_balanced entries s hbal
    by_cases hempty : (entries.foldl processEntry s).known_face_encodings.isEmpty
    · have henc : encode_known_faces s fs = (entries.foldl processEntry s, fs) := by
        unfold encode_known_faces
        rw [hdir]
        simp [hempty]
      rw [henc]
      exact ⟨hbal1, hwf, fun b hb => Or.inl hb⟩
    · have henc : encode_known_faces s fs =
          (entries.foldl processEntry s,
           FS.mk
             (some (EncBlob.mk (entries.foldl processEntry s).known_face_encodings
               (entries.foldl processEntry s).known_face_names))
             fs.known_faces_dir) := by
        unfold encode_known_faces
        rw [hdir]
        simp [hempty]
      rw [henc]
      refine ⟨hbal1, ?_, ?_⟩
      · intro b hb
        have heq := Option.some.inj hb
        rw [← heq]
        exact hbal1
      · intro b hb
        have heq := Option.some.inj hb
        exact Or.inr ⟨heq.symm, by rw [← heq]; exact hbal1⟩

theorem load_preserves (s : FRSState) (fs : FS)
    (hwf : FS.wf fs)
    (hbal : s.known_face_encodings.length = s.known_face_names.length) :
    ((load_known_faces s fs).fst.known_face_encodings.length =
      (load_known_faces s fs).fst.known_face_names.length) ∧
    FS.wf (load_known_faces s fs).snd := by
  cases hfile : fs.encodings_file with
  | some blob =>
    have h : load_known_faces s fs =
        (FRSState.mk blob.encodings blob.names, fs) := by
      unfold load_known_faces
      rw [hfile]
    rw [h]
    exact ⟨hwf blob hfile, hwf⟩
  | none =>
    have h : load_known_faces s fs = encode_known_faces s fs := by
      unfold load_known_faces
      rw [hfile]
    rw [h]
    exact ⟨(encode_preserves s fs hwf hbal).1, (encode_preserves s fs hwf hbal).2.1⟩

/-! Claim theorems. -/

/-- Claim C1: with a non-empty known-faces registry, recognize_faces_in_frame
labels each detected face encoding purely from the external library output:
the known name at the first index of minimal face_distance when
compare_faces (distance at most the configured tolerance) marks that index,
and Inconnu otherwise; and it returns exactly one label per detected
encoding. -/
theorem C1_recognize_argmin_threshold (s : FRSState) (tol : ℚ) (rs : List LibFaceResult)
    (hne : s.known_face_encodings ≠ [])
    (hc : ∀ r ∈ rs, r.distances.length = s.known_face_encodings.length ∧
          r.matchList = r.distances.map (fun d => decide (d ≤ tol))) :
    recognize_faces_in_frame s rs =
      rs.map (fun r =>
        if r.distances.getD (argmin r.distances) 0 ≤ tol then
          FaceLabel.known (s.known_face_names.getD (argmin r.distances) "")
            ((1 - r.distances.getD (argmin r.distances) 0) * 100)
        else FaceLabel.inconnu) ∧
    (recognize_faces_in_frame s rs).length = rs.length ∧
    (∀ r ∈ rs, ∀ i, i < r.distances.length →
      r.distances.getD (argmin r.distances) 0 ≤ r.distances.getD i 0) := by
  have hempty : s.known_face_encodings.isEmpty = false := by
    cases hs : s.known_face_encodings with
    | nil => exact absurd hs hne
    | cons a l => rfl
  have hfold : recognize_faces_in_frame s rs = rs.map (recognizeFace s) := by
    simpa using foldl_append_singleton (recognizeFace s) rs []
  have hdne : ∀ r ∈ rs, r.distances ≠ [] := by
    intro r hr h0
    obtain ⟨hdl, _⟩ := hc r hr
    rw [h0] at hdl
    exact hne (List.eq_nil_of_length_eq_zero hdl.symm)
  refine ⟨?_, ?_, ?_⟩
  · rw [hfold]
    apply List.map_congr_left
    intro r hr
    obtain ⟨hdl, hml⟩ := hc r hr
    have hbest : argmin r.distances < r.distances.length :=
      argmin_lt_length _ (hdne r hr)
    simp only [recognizeFace, hempty, Bool.false_eq_true, if_false, hml]
    rw [List.getD_eq_getElem?_getD, List.getElem?_map, List.getElem?_eq_getElem hbest]
    by_cases hle : r.distances.get ⟨argmin r.distances, hbest⟩ ≤ tol
    · simp [hle, List.getD_eq_getElem?_getD, List.getElem?_eq_getElem hbest]
    · simp [hle, List.getD_eq_getElem?_getD, List.getElem?_eq_getElem hbest]
  · rw [hfold]
    simp
  · intro r hr i hi
    exact argmin_le_getD r.distances (hdne r hr) i hi

/-- Concrete instantiation of C1: one known face, one detected face within
tolerance. -/
theorem C1_recognize_argmin_threshold_witness :
    ((FRSState.mk [[0]] [ "Alice"]).known_face_encodings ≠ [] ∧
      (∀ r ∈ [LibFaceResult.mk [true] [(0 : ℚ)]],
        r.distances.length = (FRSState.mk [[0]] [ "Alice"]).known_face_encodings.length ∧
        r.matchList = r.distances.map (fun d => decide (d ≤ (1 : ℚ))))) ∧
    (recognize_faces_in_frame (FRSState.mk [[0]] [ "Alice"])
        [LibFaceResult.mk [true] [(0 : ℚ)]] =
      [LibFaceResult.mk [true] [(0 : ℚ)]].map (fun r =>
        if r.distances.getD (argmin r.distances) 0 ≤ (1 : ℚ) then
          FaceLabel.known ((FRSState.mk [[0]] [ "Alice"]).known_face_names.getD (argmin r.distances) "")
            ((1 - r.distances.getD (argmin r.distances) 0) * 100)
        else FaceLabel.inconnu) ∧
    (recognize_faces_in_frame (FRSState.mk [[0]] [ "Alice"])
        [LibFaceResult.mk [true] [(0 : ℚ)]]).length =
      [LibFaceResult.mk [true] [(0 : ℚ)]].length ∧
    (∀ r ∈ [LibFaceResult.mk [true] [(0 : ℚ)]], ∀ i, i < r.distances.length →
      r.distances.getD (argmin r.distances) 0 ≤ r.distances.getD i 0)) :=
  ⟨⟨by decide, by decide⟩,
    C1_recognize_argmin_threshold (FRSState.mk [[0]] [ "Alice"]) (1 : ℚ)
      [LibFaceResult.mk [true] [(0 : ℚ)]] (by decide) (by decide)⟩

/-- Claim C6: round trip of the encodings blob: load_encodings after
save_encodings on the same filename returns exactly the dict with the two
saved lists. -/
theorem C6_save_load_roundtrip (encodings : List Encoding) (names : List String)
    (filename : String) (fs : PickleFS) :
    load_encodings filename (save_encodings encodings names filename fs) =
      some (EncBlob.mk encodings names) := by
  simp [load_encodings, save_encodings]

/-- Claim C7: add_from_file returns False and leaves the tree untouched
when the source file does not exist; when it exists it returns True after
creating the person directory if needed and copying the source content to
the file named after the source basename inside it. -/
theorem C7_add_from_file (person_name srcName : String) (c : Content)
    (tree : List (String × FileList)) :
    add_from_file person_name srcName none tree = (false, tree) ∧
    (add_from_file person_name srcName (some c) tree).fst = true ∧
    lookupFile (add_from_file person_name srcName (some c) tree).snd
      person_name srcName = some c ∧
    dirHasPerson (add_from_file person_name srcName (some c) tree).snd
      person_name = true := by
  refine ⟨rfl, rfl, ?_, ?_⟩
  · simpa [add_from_file] using lookupFile_mkdirAddFile tree person_name srcName c
  · simpa [add_from_file] using dirHasPerson_mkdirAddFile tree person_name srcName c

/-- Claim C8: resize_image leaves an image within the bounds unchanged;
for a larger image it scales both dimensions by
r = min(max_width / width, max_height / height), truncating, and the
result fits within max_width by max_height. -/
theorem C8_resize_image_bounds (width height max_width max_height : ℕ)
    (hw : 0 < width) (hh : 0 < height) :
    (width ≤ max_width → height ≤ max_height →
      resize_image width height max_width max_height = (width, height)) ∧
    (max_width < width ∨ max_height < height →
      resize_image width height max_width max_height =
        ((Int.floor ((width : ℚ) *
            min ((max_width : ℚ) / (width : ℚ)) ((max_height : ℚ) / (height : ℚ)))).toNat,
         (Int.floor ((height : ℚ) *
            min ((max_width : ℚ) / (width : ℚ)) ((max_height : ℚ) / (height : ℚ)))).toNat) ∧
      (resize_image width height max_width max_height).fst ≤ max_width ∧
      (resize_image width height max_width max_height).snd ≤ max_height) := by
  have hwq : (0 : ℚ) < (width : ℚ) := by exact_mod_cast hw
  have hhq : (0 : ℚ) < (height : ℚ) := by exact_mod_cast hh
  constructor
  · intro h1 h2
    have hr1 : (1 : ℚ) ≤ (max_width : ℚ) / (width : ℚ) := by
      rw [le_div_iff₀ hwq]
      simpa using (Nat.cast_le.mpr h1 : (width : ℚ) ≤ (max_width : ℚ))
    have hr2 : (1 : ℚ) ≤ (max_height : ℚ) / (height : ℚ) := by
      rw [le_div_iff₀ hhq]
      simpa using (Nat.cast_le.mpr h2 : (height : ℚ) ≤ (max_height : ℚ))
    have : ¬ (min ((max_width : ℚ) / (width : ℚ)) ((max_height : ℚ) / (height : ℚ)) < 1) := by
      simp [lt_min_iff, not_lt, le_min_iff]
      exact ⟨hr1, hr2⟩
    simp [resize_image, this]
  · intro hgt
    have hrlt : min ((max_width : ℚ) / (width : ℚ)) ((max_height : ℚ) / (height : ℚ)) < 1 := by
      rcases hgt with h | h
      · apply lt_of_le_of_lt (min_le_left _ _)
        rw [div_lt_one hwq]
        exact_mod_cast h
      · apply lt_of_le_of_lt (min_le_right _ _)
        rw [div_lt_one hhq]
        exact_mod_cast h
    have heq : resize_image width height max_width max_height =
        ((Int.floor ((width : ℚ) *
            min ((max_width : ℚ) / (width : ℚ)) ((max_height : ℚ) / (height : ℚ)))).toNat,
         (Int.floor ((height : ℚ) *
            min ((max_width : ℚ) / (width : ℚ)) ((max_height : ℚ) / (height : ℚ)))).toNat) := by
      simp [resize_image, hrlt]
    refine ⟨heq, ?_, ?_⟩
    · rw [heq]
      have hle : (width : ℚ) *
          min ((max_width : ℚ) / (width : ℚ)) ((max_height : ℚ) / (height : ℚ)) ≤
          (max_width : ℚ) := by
        calc (width : ℚ) * min ((max_width : ℚ) / (width : ℚ)) ((max_height : ℚ) / (height : ℚ))
            ≤ (width : ℚ) * ((max_width : ℚ) / (width : ℚ)) :=
              mul_le_mul_of_nonneg_left (min_le_left _ _) (le_of_lt hwq)
          _ = (max_width : ℚ) := by
              field_simp
      have hfl : Int.floor ((width : ℚ) *
          min ((max_width : ℚ) / (width : ℚ)) ((max_height : ℚ) / (height : ℚ))) ≤
          (max_width : ℤ) := by
        have := Int.floor_le_floor hle
        simpa using this
      exact Int.toNat_le.mpr hfl
    · rw [heq]
      have hle : (height : ℚ) *
          min ((max_width : ℚ) / (width : ℚ)) ((max_height : ℚ) / (height : ℚ)) ≤
          (max_height : ℚ) := by
        calc (height : ℚ) * min ((max_width : ℚ) / (width : ℚ)) ((max_height : ℚ) / (height : ℚ))
            ≤ (height : ℚ) * ((max_height : ℚ) / (height : ℚ)) :=
              mul_le_mul_of_nonneg_left (min_le_right _ _) (le_of_lt hhq)
          _ = (max_height : ℚ) := by
              field_simp
      have hfl : Int.floor ((height : ℚ) *
          min ((max_width : ℚ) / (width : ℚ)) ((max_height : ℚ) / (height : ℚ))) ≤
          (max_height : ℤ) := by
        have := Int.floor_le_floor hle
        simpa using this
      exact Int.toNat_le.mpr hfl

/-- Concrete instantiation of C8 at a 1000 by 500 image with bounds
800 by 600. -/
theorem C8_resize_image_bounds_witness :
    (0 < 1000 ∧ 0 < 500) ∧
    ((1000 ≤ 800 → 500 ≤ 600 →
      resize_image 1000 500 800 600 = (1000, 500)) ∧
    (800 < 1000 ∨ 600 < 500 →
      resize_image 1000 500 800 600 =
        ((Int.floor ((1000 : ℚ) *
            min ((800 : ℚ) / (1000 : ℚ)) ((600 : ℚ) / (500 : ℚ)))).toNat,
         (Int.floor ((500 : ℚ) *
            min ((800 : ℚ) / (1000 : ℚ)) ((600 : ℚ) / (500 : ℚ)))).toNat) ∧
      (resize_image 1000 500 800 600).fst ≤ 800 ∧
      (resize_image 1000 500 800 600).snd ≤ 600)) := by
  constructor
  · exact ⟨by decide, by decide⟩
  · have h := C8_resize_image_bounds 1000 500 800 600 (by decide) (by decide)
    simpa using h

theorem ceilSqrt_sq_ge (n : ℕ) : n ≤ ceilSqrt n * ceilSqrt n := by
  unfold ceilSqrt
  split
  · rename_i h
    exact le_of_eq h.symm
  · exact le_of_lt (Nat.lt_succ_sqrt n)

theorem ceilSqrt_pos (n : ℕ) (h : 1 ≤ n) : 0 < ceilSqrt n := by
  unfold ceilSqrt
  split
  · rename_i he
    by_contra hz
    push_neg at hz
    have hs : Nat.sqrt n = 0 := Nat.le_zero.mp hz
    rw [hs] at he
    omega
  · exact Nat.succ_pos _

theorem mosaicRows_mul_cols_ge (n : ℕ) (h : 1 ≤ n) :
    n ≤ mosaicRows n * mosaicCols n := by
  have hc : 0 < mosaicCols n := ceilSqrt_pos n h
  have hcq : (0 : ℚ) < (mosaicCols n : ℚ) := by exact_mod_cast hc
  have hq : ((n : ℚ) / (mosaicCols n : ℚ)) ≤ ((Int.ceil ((n : ℚ) / (mosaicCols n : ℚ)) : ℤ) : ℚ) :=
    Int.le_ceil _
  have hnonneg : (0 : ℤ) ≤ Int.ceil ((n : ℚ) / (mosaicCols n : ℚ)) := by
    apply Int.ceil_nonneg
    positivity
  have hrows : ((mosaicRows n : ℕ) : ℤ) = Int.ceil ((n : ℚ) / (mosaicCols n : ℚ)) := by
    unfold mosaicRows
    exact Int.toNat_of_nonneg hnonneg
  have hrowsq : ((mosaicRows n : ℕ) : ℚ) =
      ((Int.ceil ((n : ℚ) / (mosaicCols n : ℚ)) : ℤ) : ℚ) := by
    exact_mod_cast congrArg (fun z : ℤ => (z : ℚ)) hrows
  have hdiv : ((n : ℚ) / (mosaicCols n : ℚ)) ≤ ((mosaicRows n : ℕ) : ℚ) := by
    rw [hrowsq]
    exact hq
  have : (n : ℚ) ≤ ((mosaicRows n : ℕ) : ℚ) * ((mosaicCols n : ℕ) : ℚ) := by
    rw [div_le_iff₀ hcq] at hdiv
    exact hdiv
  exact_mod_cast this

/-- Claim C9: for n loaded images (n at least 1), with
cols = ceil(sqrt(n)) and rows = ceil(n / cols), the grid covers all
images: rows * cols is at least n, every index idx below n maps to block
(idx div cols, idx mod cols) strictly inside the grid, and each 200 by 200
block write stays inside the rows*200 by cols*200 mosaic. -/
theorem C9_mosaic_block_in_bounds (n : ℕ) (h : 1 ≤ n) :
    n ≤ mosaicRows n * mosaicCols n ∧
    (∀ idx, idx < n →
      idx / mosaicCols n < mosaicRows n ∧ idx % mosaicCols n < mosaicCols n) ∧
    (∀ idx, idx < n →
      (idx / mosaicCols n + 1) * 200 ≤ mosaicRows n * 200 ∧
      (idx % mosaicCols n + 1) * 200 ≤ mosaicCols n * 200) := by
  have hc : 0 < mosaicCols n := ceilSqrt_pos n h
  have hge : n ≤ mosaicRows n * mosaicCols n := mosaicRows_mul_cols_ge n h
  have hblock : ∀ idx, idx < n →
      idx / mosaicCols n < mosaicRows n ∧ idx % mosaicCols n < mosaicCols n := by
    intro idx hidx
    constructor
    · rw [Nat.div_lt_iff_lt_mul hc]
      exact lt_of_lt_of_le hidx hge
    · exact Nat.mod_lt idx hc
  refine ⟨hge, hblock, ?_⟩
  intro idx hidx
  obtain ⟨h1, h2⟩ := hblock idx hidx
  exact ⟨Nat.mul_le_mul_right 200 h1, Nat.mul_le_mul_right 200 h2⟩

/-- Concrete instantiation of C9 at n = 10 images (grid 3 rows by
4 columns). -/
theorem C9_mosaic_block_in_bounds_witness :
    1 ≤ 10 ∧
    (10 ≤ mosaicRows 10 * mosaicCols 10 ∧
    (∀ idx, idx < 10 →
      idx / mosaicCols 10 < mosaicRows 10 ∧ idx % mosaicCols 10 < mosaicCols 10) ∧
    (∀ idx, idx < 10 →
      (idx / mosaicCols 10 + 1) * 200 ≤ mosaicRows 10 * 200 ∧
      (idx % mosaicCols 10 + 1) * 200 ≤ mosaicCols 10 * 200)) :=
  ⟨by decide, C9_mosaic_block_in_bounds 10 (by decide)⟩

/-- Claim C4 as stated is false on the code: utils.load_image raises a
ValueError the repository constructs itself when cv2.imread returns None
(utils.py line 28), so it is not the case that no function in the
repository raises an exception it constructs. -/
theorem C4_counterexample_constructed_raise :
    load_image "photo.jpg" none =
      Except.error ( "Impossible de charger l\x27image: photo.jpg") := rfl

/-- Claim C4 (amended): exceptions raised while loading or encoding an
image inside encode_known_faces are caught: processing continues with the
remaining images exactly as if the erroring files were absent, all
encodings appended before an error are retained (the registry only grows
by appending), and the only exception the repository constructs itself is
the ValueError of load_image when cv2.imread returns None; load_image
propagates the image unchanged otherwise. -/
theorem C4_exceptions_caught_and_printed (s : FRSState) (entries : List DirEntry)
    (p : String) (img : Image) :
    entries.foldl processEntry s = (entries.map dropErrFiles).foldl processEntry s ∧
    (∃ t, (entries.foldl processEntry s).known_face_encodings =
      s.known_face_encodings ++ t) ∧
    load_image p (some img) = Except.ok img ∧
    load_image p none =
      Except.error ( "Impossible de charger l\x27image: " ++ p) := by
  refine ⟨foldl_processEntry_dropErr entries s, ?_, rfl, rfl⟩
  exact ⟨(encodedOf entries).map Prod.fst, by rw [foldl_processEntry_eq]⟩

/-- Claim C5: encode_known_faces appends exactly the contributions of the
immediate subdirectories of the known-faces directory, in iteration order:
for each file of a subdirectory whose lowercased suffix is whitelisted and
whose encoding succeeds with at least one face, the first encoding paired
with the subdirectory name; all other files, and top-level non-directory
entries, contribute nothing. -/
theorem C5_encode_enumerates_subdirs (s : FRSState) (fs : FS) (entries : List DirEntry)
    (hdir : fs.known_faces_dir = some entries) :
    (encode_known_faces s fs).fst.known_face_encodings =
      s.known_face_encodings ++ (encodedOf entries).map Prod.fst ∧
    (encode_known_faces s fs).fst.known_face_names =
      s.known_face_names ++ (encodedOf entries).map Prod.snd := by
  have hfst := encode_fst_eq s fs entries hdir
  refine ⟨?_, ?_⟩
  · rw [hfst, foldl_processEntry_eq]
  · rw [hfst, foldl_processEntry_eq]

/-- Concrete instantiation of C5: one person directory holding a good
image, a non-image file, an erroring image and a faceless image, plus a
top-level plain file; exactly one pair is appended. -/
theorem C5_encode_enumerates_subdirs_witness :
    (FS.mk none (some
      [DirEntry.dir "Bob"
        [ImgFile.mk "x.jpg" (ImgResult.ok [[1]]),
         ImgFile.mk "notes.txt" (ImgResult.ok [[2]]),
         ImgFile.mk "bad.png" ImgResult.err,
         ImgFile.mk "empty.jpg" (ImgResult.ok [])],
       DirEntry.file "README"])).known_faces_dir =
      some
      [DirEntry.dir "Bob"
        [ImgFile.mk "x.jpg" (ImgResult.ok [[1]]),
         ImgFile.mk "notes.txt" (ImgResult.ok [[2]]),
         ImgFile.mk "bad.png" ImgResult.err,
         ImgFile.mk "empty.jpg" (ImgResult.ok [])],
       DirEntry.file "README"] ∧
    ((encode_known_faces (FRSState.mk [] [])
        (FS.mk none (some
          [DirEntry.dir "Bob"
            [ImgFile.mk "x.jpg" (ImgResult.ok [[1]]),
             ImgFile.mk "notes.txt" (ImgResult.ok [[2]]),
             ImgFile.mk "bad.png" ImgResult.err,
             ImgFile.mk "empty.jpg" (ImgResult.ok [])],
           DirEntry.file "README"]))).fst.known_face_encodings =
      (FRSState.mk [] []).known_face_encodings ++
        (encodedOf
          [DirEntry.dir "Bob"
            [ImgFile.mk "x.jpg" (ImgResult.ok [[1]]),
             ImgFile.mk "notes.txt" (ImgResult.ok [[2]]),
             ImgFile.mk "bad.png" ImgResult.err,
             ImgFile.mk "empty.jpg" (ImgResult.ok [])],
           DirEntry.file "README"]).map Prod.fst ∧
     (encode_known_faces (FRSState.mk [] [])
        (FS.mk none (some
          [DirEntry.dir "Bob"
            [ImgFile.mk "x.jpg" (ImgResult.ok [[1]]),
             ImgFile.mk "notes.txt" (ImgResult.ok [[2]]),
             ImgFile.mk "bad.png" ImgResult.err,
             ImgFile.mk "empty.jpg" (ImgResult.ok [])],
           DirEntry.file "README"]))).fst.known_face_names =
      (FRSState.mk [] []).known_face_names ++
        (encodedOf
          [DirEntry.dir "Bob"
            [ImgFile.mk "x.jpg" (ImgResult.ok [[1]]),
             ImgFile.mk "notes.txt" (ImgResult.ok [[2]]),
             ImgFile.mk "bad.png" ImgResult.err,
             ImgFile.mk "empty.jpg" (ImgResult.ok [])],
           DirEntry.file "README"]).map Prod.snd) :=
  ⟨rfl,
    C5_encode_enumerates_subdirs (FRSState.mk [] [])
      (FS.mk none (some
        [DirEntry.dir "Bob"
          [ImgFile.mk "x.jpg" (ImgResult.ok [[1]]),
           ImgFile.mk "notes.txt" (ImgResult.ok [[2]]),
           ImgFile.mk "bad.png" ImgResult.err,
           ImgFile.mk "empty.jpg" (ImgResult.ok [])],
         DirEntry.file "README"]))
      [DirEntry.dir "Bob"
        [ImgFile.mk "x.jpg" (ImgResult.ok [[1]]),
         ImgFile.mk "notes.txt" (ImgResult.ok [[2]]),
         ImgFile.mk "bad.png" ImgResult.err,
         ImgFile.mk "empty.jpg" (ImgResult.ok [])],
       DirEntry.file "README"] rfl⟩

/-- Claim C2: after initialisation, load_known_faces and
encode_known_faces the two registry lists have equal length (starting from
a balanced state and a well-formed encodings file), and every blob written
by save_encodings or by encode_known_faces is exactly the dict with the
two keys encodings and names holding the two parallel lists of equal
length. -/
theorem C2_parallel_lists_invariant (fs : FS) (s : FRSState)
    (e : List Encoding) (nms : List String) (filename : String) (pfs : PickleFS)
    (hwf : FS.wf fs)
    (hbal : s.known_face_encodings.length = s.known_face_names.length)
    (hen : e.length = nms.length) :
    ((initSystem fs).fst.known_face_encodings.length =
      (initSystem fs).fst.known_face_names.length ∧
     FS.wf (initSystem fs).snd) ∧
    ((load_known_faces s fs).fst.known_face_encodings.length =
      (load_known_faces s fs).fst.known_face_names.length ∧
     FS.wf (load_known_faces s fs).snd) ∧
    ((encode_known_faces s fs).fst.known_face_encodings.length =
      (encode_known_faces s fs).fst.known_face_names.length ∧
     FS.wf (encode_known_faces s fs).snd ∧
     (∀ b, (encode_known_faces s fs).snd.encodings_file = some b →
       fs.encodings_file = some b ∨
       (b = EncBlob.mk (encode_known_faces s fs).fst.known_face_encodings
             (encode_known_faces s fs).fst.known_face_names ∧
        b.encodings.length = b.names.length))) ∧
    (save_encodings e nms filename pfs filename = some (EncBlob.mk e nms) ∧
     (EncBlob.mk e nms).encodings.length = (EncBlob.mk e nms).names.length) := by
  refine ⟨?_, load_preserves s fs hwf hbal, encode_preserves s fs hwf hbal, ?_, hen⟩
  · exact load_preserves (FRSState.mk [] []) fs hwf rfl
  · simp [save_encodings]

/-- Concrete instantiation of C2 on an empty file system and a singleton
registry. -/
theorem C2_parallel_lists_invariant_witness :
    (FS.wf (FS.mk none none) ∧
     (FRSState.mk [] []).known_face_encodings.length =
       (FRSState.mk [] []).known_face_names.length ∧
     ([([0] : Encoding)]).length = ([ "A"]).length) ∧
    (((initSystem (FS.mk none none)).fst.known_face_encodings.length =
      (initSystem (FS.mk none none)).fst.known_face_names.length ∧
     FS.wf (initSystem (FS.mk none none)).snd) ∧
    ((load_known_faces (FRSState.mk [] []) (FS.mk none none)).fst.known_face_encodings.length =
      (load_known_faces (FRSState.mk [] []) (FS.mk none none)).fst.known_face_names.length ∧
     FS.wf (load_known_faces (FRSState.mk [] []) (FS.mk none none)).snd) ∧
    ((encode_known_faces (FRSState.mk [] []) (FS.mk none none)).fst.known_face_encodings.length =
      (encode_known_faces (FRSState.mk [] []) (FS.mk none none)).fst.known_face_names.length ∧
     FS.wf (encode_known_faces (FRSState.mk [] []) (FS.mk none none)).snd ∧
     (∀ b, (encode_known_faces (FRSState.mk [] []) (FS.mk none none)).snd.encodings_file = some b →
       (FS.mk none none).encodings_file = some b ∨
       (b = EncBlob.mk
             (encode_known_faces (FRSState.mk [] []) (FS.mk none none)).fst.known_face_encodings
             (encode_known_faces (FRSState.mk [] []) (FS.mk none none)).fst.known_face_names ∧
        b.encodings.length = b.names.length))) ∧
    (save_encodings [([0] : Encoding)] [ "A"] "face_encodings.pkl" (fun _ => none)
        "face_encodings.pkl" = some (EncBlob.mk [[0]] [ "A"]) ∧
     (EncBlob.mk [([0] : Encoding)] [ "A"]).encodings.length =
       (EncBlob.mk [([0] : Encoding)] [ "A"]).names.length)) :=
  ⟨⟨by simp [FS.wf], rfl, rfl⟩,
    C2_parallel_lists_invariant (FS.mk none none) (FRSState.mk [] [])
      [[0]] [ "A"] "face_encodings.pkl" (fun _ => none)
      (by simp [FS.wf]) rfl rfl⟩

/-- Claim C3: when the encodings file exists, load_known_faces loads the
registry entirely from its blob and leaves the file system untouched
(so the known-faces directory is not scanned); when it is absent it runs
encode_known_faces, and the encodings file ends up written exactly when at
least one encoding was produced. -/
theorem C3_encodings_file_is_cache (fs : FS) (blob : EncBlob) :
    (fs.encodings_file = some blob →
      load_known_faces (FRSState.mk [] []) fs =
        (FRSState.mk blob.encodings blob.names, fs)) ∧
    (fs.encodings_file = none →
      (load_known_faces (FRSState.mk [] []) fs =
        encode_known_faces (FRSState.mk [] []) fs ∧
      ((encode_known_faces (FRSState.mk [] []) fs).snd.encodings_file ≠ none ↔
        (encode_known_faces (FRSState.mk [] []) fs).fst.known_face_encodings ≠ []))) := by
  constructor
  · intro hfile
    unfold load_known_faces
    rw [hfile]
  · intro hfile
    constructor
    · unfold load_known_faces
      rw [hfile]
    · cases hdir : fs.known_faces_dir with
      | none =>
        have henc : encode_known_faces (FRSState.mk [] []) fs =
            (FRSState.mk [] [], FS.mk fs.encodings_file (some [])) := by
          unfold encode_known_faces
          rw [hdir]
        rw [henc]
        simp [hfile]
      | some entries =>
        by_cases hempty :
            (entries.foldl processEntry (FRSState.mk [] [])).known_face_encodings.isEmpty
        · have henc : encode_known_faces (FRSState.mk [] []) fs =
              (entries.foldl processEntry (FRSState.mk [] []), fs) := by
            unfold encode_known_faces
            rw [hdir]
            simp [hempty]
          rw [henc]
          have hnil : (entries.foldl processEntry (FRSState.mk [] [])).known_face_encodings = [] :=
            List.isEmpty_iff.mp hempty
          simp [hfile, hnil]
        · have henc : encode_known_faces (FRSState.mk [] []) fs =
              (entries.foldl processEntry (FRSState.mk [] []),
               FS.mk
                 (some (EncBlob.mk
                   (entries.foldl processEntry (FRSState.mk [] [])).known_face_encodings
                   (entries.foldl processEntry (FRSState.mk [] [])).known_face_names))
                 fs.known_faces_dir) := by
            unfold encode_known_faces
            rw [hdir]
            simp [hempty]
          rw [henc]
          have hne : (entries.foldl processEntry (FRSState.mk [] [])).known_face_encodings ≠ [] := by
            intro h0
            apply hempty
            rw [h0]
            rfl
          simp [hne]

/-- Concrete instantiation of C3: one file system with the encodings file
present, one with it absent. -/
theorem C3_encodings_file_is_cache_witness :
    ((FS.mk (some (EncBlob.mk [[0]] [ "A"])) none).encodings_file =
        some (EncBlob.mk [[0]] [ "A"]) ∧
      load_known_faces (FRSState.mk [] []) (FS.mk (some (EncBlob.mk [[0]] [ "A"])) none) =
        (FRSState.mk (EncBlob.mk [[0]] [ "A"]).encodings (EncBlob.mk [[0]] [ "A"]).names,
         FS.mk (some (EncBlob.mk [[0]] [ "A"])) none)) ∧
    ((FS.mk none (some [])).encodings_file = none ∧
      (load_known_faces (FRSState.mk [] []) (FS.mk none (some [])) =
        encode_known_faces (FRSState.mk [] []) (FS.mk none (some [])) ∧
      ((encode_known_faces (FRSState.mk [] []) (FS.mk none (some []))).snd.encodings_file ≠ none ↔
        (encode_known_faces (FRSState.mk [] [])
          (FS.mk none (some []))).fst.known_face_encodings ≠ []))) :=
  ⟨⟨rfl,
    (C3_encodings_file_is_cache (FS.mk (some (EncBlob.mk [[0]] [ "A"])) none)
      (EncBlob.mk [[0]] [ "A"])).1 rfl⟩,
   ⟨rfl,
    (C3_encodings_file_is_cache (FS.mk none (some []))
      (EncBlob.mk [] [])).2 rfl⟩⟩

end FacialRecognition
